import Mathlib

/-!
Shallow embedding of the Trebuchet serial chain-loader (three Rust source
files: `lib/src/lib.rs`, `src/main.rs`, `uefi/src/main.rs`) and proofs of
the claims C1-C10 about it.

Bytes are modelled as `Nat` values below 256 (the `u8` range); 16-bit CRC
registers as `Nat` values below 2^16; `Duration` values as microsecond
counts (`Nat`).  Fallible reads from the serial channel are modelled as
`Option Nat` entries of a stream list (`none` = the read timed out).
-/

namespace Trebuchet

/-! ## Checksum engine (`lib/src/lib.rs`)

`Crc::<u16>::new(&CRC_16_IBM_SDLC)` is the reflected CRC-16/X-25:
polynomial 0x1021 reflected (0x8408), initial register 0xFFFF, reflected
input and output, final XOR 0xFFFF.  The reflected algorithm processes the
register LSB-first. -/

/-- One bit step of the reflected CRC-16/X-25: shift right, conditionally
XOR the reflected polynomial 0x8408. -/
def crcBit (r : Nat) : Nat :=
  if r % 2 = 1 then (r / 2) ^^^ 0x8408 else r / 2

/-- One byte step: XOR the byte (a `u8`, hence masked to its low 8 bits)
into the register, then eight bit steps. -/
def crcByte (r b : Nat) : Nat :=
  crcBit^[8] (r ^^^ (b % 256))

/-- Model of `trebuchet_lib::checksum`: fold the byte step over the message from the
initial register 0xFFFF and apply the final XOR 0xFFFF. -/
def checksum (msg : List Nat) : Nat :=
  (msg.foldl crcByte 0xFFFF) ^^^ 0xFFFF

/-- Model of `trebuchet_lib::CHUNK_SIZE`. -/
def CHUNK_SIZE : Nat := 256

/-! ## Chunking (`slice::chunks` / `chunks_mut`)

`image.chunks(CHUNK_SIZE)` yields successive sub-slices of length
`CHUNK_SIZE`, the last possibly shorter; on an empty slice it yields no
chunks.  The extra `fuel` argument is only a structural termination
measure (each step consumes at least one element, so `l.length` fuel is
always enough); `chunksOf` instantiates it. -/

def chunksOfAux {α : Type} (n : Nat) : Nat → List α → List (List α)
  | 0, _ => []
  | fuel + 1, l =>
    if n = 0 ∨ l.length = 0 then []
    else l.take n :: chunksOfAux n fuel (l.drop n)

def chunksOf {α : Type} (n : Nat) (l : List α) : List (List α) :=
  chunksOfAux n l.length l

/-! ## Control tokens

The receiver emits the ASCII tokens with `format!`; the sender scans for
the identical byte sequences. -/

/-- The byte sequence of an ASCII string. -/
def tokenBytes (s : String) : List Nat :=
  s.toList.map Char.toNat

def rdyToken (n : Nat) : List Nat := tokenBytes ("RDY(" ++ toString n ++ ")\n")

def ackToken (i : Nat) : List Nat := tokenBytes ("ACK(" ++ toString i ++ ")\n")

def okToken (c : Nat) : List Nat := tokenBytes ("OK(" ++ toString c ++ ")\n")

/-! ## Helper lemmas -/

theorem crcBit_lt (r : Nat) (h : r < 65536) : crcBit r < 65536 := by
  unfold crcBit
  split
  · have h1 : r / 2 < 2 ^ 16 := by omega
    have h2 : (0x8408 : Nat) < 2 ^ 16 := by norm_num
    have := Nat.xor_lt_two_pow h1 h2
    simpa using this
  · omega

theorem crcBit_iter_lt (k r : Nat) (h : r < 65536) : crcBit^[k] r < 65536 := by
  induction k generalizing r with
  | zero => simpa using h
  | succ k ih =>
    rw [Function.iterate_succ_apply]
    exact ih _ (crcBit_lt r h)

theorem crcByte_lt (r b : Nat) (h : r < 65536) : crcByte r b < 65536 := by
  unfold crcByte
  apply crcBit_iter_lt
  have h1 : r < 2 ^ 16 := by omega
  have h2 : b % 256 < 2 ^ 16 := by
    have := Nat.mod_lt b (y := 256) (by norm_num)
    omega
  have := Nat.xor_lt_two_pow h1 h2
  simpa using this

theorem checksum_lt (msg : List Nat) : checksum msg < 65536 := by
  unfold checksum
  have hfold : ∀ (l : List Nat) (r : Nat), r < 65536 → l.foldl crcByte r < 65536 := by
    intro l
    induction l with
    | nil => intro r h; simpa using h
    | cons a l ih =>
      intro r h
      exact ih _ (crcByte_lt r a h)
  have h1 : msg.foldl crcByte 0xFFFF < 2 ^ 16 := by
    have := hfold msg 0xFFFF (by norm_num)
    omega
  have h2 : (0xFFFF : Nat) < 2 ^ 16 := by norm_num
  have := Nat.xor_lt_two_pow h1 h2
  omega

theorem chunksOfAux_flatten {α : Type} (n : Nat) (hn : 0 < n) :
    ∀ (fuel : Nat) (l : List α), l.length ≤ fuel →
      (chunksOfAux n fuel l).flatten = l := by
  intro fuel
  induction fuel with
  | zero =>
    intro l hl
    have : l = [] := List.length_eq_zero.mp (by omega)
    simp [this, chunksOfAux]
  | succ fuel ih =>
    intro l hl
    rw [chunksOfAux]
    by_cases h : n = 0 ∨ l.length = 0
    · rcases h with h | h
      · omega
      · have : l = [] := List.length_eq_zero.mp h
        simp [this, h]
    · push_neg at h
      rw [if_neg (by omega)]
      have hrec := ih (l.drop n) (by simp [List.length_drop]; omega)
      simp only [List.flatten_cons]
      rw [hrec, List.take_append_drop]

theorem chunksOf_flatten {α : Type} (n : Nat) (hn : 0 < n) (l : List α) :
    (chunksOf n l).flatten = l :=
  chunksOfAux_flatten n hn l.length l (Nat.le_refl _)

/-! ## Sender constants (`src/main.rs`)

All durations are modelled in microseconds. -/

/-- Model of `SERIAL_TIMEOUT = Duration::from_micros(10)` (line 14): the serial
port's per-read timeout quantum. -/
def SERIAL_TIMEOUT : Nat := 10

/-- Model of `let timeout = Some(Duration::from_millis(30))` (line 38): the budget
used for the size ACK, size OK and every per-chunk ACK wait. -/
def chunkAckTimeout : Nat := 30000

/-- Model of `Some(Duration::from_millis(20))` (line 98): the budget used for the
final image OK wait. -/
def imageOkTimeout : Nat := 20000

/-! ## Byte-stream scanner (`wait_for_bytes`, `src/main.rs` lines 124-150)

The incoming serial reads are a list of `Option Nat`: `some c` is a read
that delivered byte `c`, `none` a read that failed (timed out).  The
Rust loop runs while `i < bytes.len() && (timeout.is_none() ||
remaining.is_some_and(|it| it > Duration::ZERO))`; each failed read, when
a timeout was given, subtracts the port quantum from the remaining budget
with `saturating_sub`.  The model stops when the stream list is exhausted,
returning the loop state reached at that point. -/

structure ScanResult where
  cursor : Nat
  reads : Nat
  rest : List (Option Nat)
  remaining : Option Nat
  deriving DecidableEq, Repr

/-- Model of `timeout.is_none() || remaining.is_some_and(|it| it > Duration::ZERO)`. -/
def budgetOk (timeout remaining : Option Nat) : Bool :=
  timeout.isNone ||
    (match remaining with
     | some d => decide (0 < d)
     | none => false)

def waitGo (bytes : List Nat) (q : Nat) (timeout : Option Nat) :
    List (Option Nat) → Nat → Option Nat → ScanResult
  | [], i, remaining => ⟨i, 0, [], remaining⟩
  | r :: rest, i, remaining =>
    if i < bytes.length ∧ budgetOk timeout remaining = true then
      let w :=
        match r with
        | some c =>
          if bytes[i]? = some c then waitGo bytes q timeout rest (i + 1) remaining
          else waitGo bytes q timeout rest 0 remaining
        | none =>
          waitGo bytes q timeout rest i
            (if timeout.isSome then remaining.map (fun d => d - q) else remaining)
      ⟨w.cursor, w.reads + 1, w.rest, w.remaining⟩
    else ⟨i, 0, r :: rest, remaining⟩

/-- Model of `wait_for_bytes`: run the scan loop from cursor 0 with the remaining
budget initialised to the timeout, then `Ok(())` if the cursor reached the
target length, else `Err(i)`. -/
def wait_for_bytes (bytes : List Nat) (stream : List (Option Nat))
    (timeout : Option Nat) (q : Nat) : Except Nat Unit :=
  let w := waitGo bytes q timeout stream 0 timeout
  if w.cursor = bytes.length then .ok () else .error w.cursor

/-! ## Sender state machine, chunk phase (`src/main.rs` lines 80-91)

`for (i, chunk) in image.chunks(CHUNK_SIZE).enumerate` with an inner
`loop` that writes the chunk (discarding the write result) and breaks
only when the bounded scan for `ACK(i)` succeeds.  An iteration of the
inner loop is driven by one boolean: whether `wait_for_bytes` returned
`Ok`.  After the last chunk the sender falls through to the image OK
wait (lines 93-100). -/

inductive SenderState where
  | sendChunk : Nat → SenderState
  | awaitImageOk : SenderState
  deriving DecidableEq, Repr

/-- One inner-loop iteration of the chunk phase for an image of `n`
chunks: on a failed ACK scan the sender stays at chunk `i` (and will
rewrite it); on success it advances to chunk `i+1`, or past the loop when
`i` was the last chunk. -/
def chunkStep (n : Nat) : SenderState → Bool → SenderState
  | .sendChunk i, true =>
    if i + 1 < n then .sendChunk (i + 1) else .awaitImageOk
  | .sendChunk i, false => .sendChunk i
  | .awaitImageOk, _ => .awaitImageOk

/-- Iterate the chunk phase over a list of ACK-scan outcomes. -/
def chunkRun (n : Nat) (st : SenderState) (outcomes : List Bool) : SenderState :=
  outcomes.foldl (chunkStep n) st

/-- The chunk written (`let _ = port.write_all(chunk)`) at each iteration:
in state `sendChunk i` the sender always writes chunk `i` of the image. -/
def chunkWrites (image : List Nat) (n : Nat) :
    SenderState → List Bool → List (List Nat)
  | _, [] => []
  | .sendChunk i, r :: rs =>
    (chunksOf CHUNK_SIZE image).getD i [] ::
      chunkWrites image n (chunkStep n (.sendChunk i) r) rs
  | .awaitImageOk, _ :: rs =>
    chunkWrites image n .awaitImageOk rs

/-- Where the chunk phase starts: at chunk 0 when the image has at least
one chunk, otherwise the `for` loop body never runs and the sender is
immediately at the image OK wait. -/
def chunkPhaseStart (n : Nat) : SenderState :=
  if 0 < n then .sendChunk 0 else .awaitImageOk

/-- One chunk-phase iteration with the transport write result made
explicit: the code discards it (`let _ = port.write_all(chunk)`), so the
transition depends only on the ACK-scan outcome. -/
def chunkIter (n : Nat) (st : SenderState) (writeOk : Bool) (scanOk : Bool) :
    SenderState :=
  let _ := writeOk
  chunkStep n st scanOk

/-- The size write (`port.write_all(size).expect(..)`, lines 51-52): a
failed transport write aborts the process (`none`); a successful one
continues (`some ()`). -/
def sizeWriteOutcome (writeOk : Bool) : Option Unit :=
  if writeOk then some () else none

/-! ## Size field (`src/main.rs` lines 49-58, `uefi/src/main.rs` 73-82) -/

/-- Model of `(image.len() as u64).to_be_bytes()`: the eight big-endian bytes of
the length, most significant first. -/
def toBeBytes8 (n : Nat) : List Nat :=
  (List.range 8).map (fun k => n / 256 ^ (7 - k) % 256)

/-- Model of `usize::from_be_bytes` (64-bit target): big-endian decode. -/
def fromBeBytes (l : List Nat) : Nat :=
  l.foldl (fun a b => a * 256 + b) 0

/-- The sender's size-phase write trace: one unconditional write of the
eight big-endian length bytes (`as u64` wraps at 2^64). -/
def sendSizeTrace (imageLen : Nat) : List (List Nat) :=
  [toBeBytes8 (imageLen % 2 ^ 64)]

/-- The ACK targets the sender waits for after the size write:
`for i in 0..size.chunks(CHUNK_SIZE).len()` scans for `ACK(i)`. -/
def sizeAckTargets (size : List Nat) : List (List Nat) :=
  (List.range (chunksOf CHUNK_SIZE size).length).map (fun i => ackToken i)

/-! ## Image OK wait (`src/main.rs` lines 93-100) -/

/-- The final bounded scan for `OK(checksum(image))` with the 20 ms
budget. -/
def awaitImageOk (image : List Nat) (stream : List (Option Nat)) :
    Except Nat Unit :=
  wait_for_bytes (okToken (checksum image)) stream (some imageOkTimeout)
    SERIAL_TIMEOUT

/-- Model of the `.expect("Timed out waiting for image OK.")` call: a scan failure aborts
the process (`none`). -/
def senderFinish (image : List Nat) (stream : List (Option Nat)) :
    Option Unit :=
  match awaitImageOk image stream with
  | .ok _ => some ()
  | .error _ => none

/-! ## Receiver (`uefi/src/main.rs`)

`receive_bytes` fills the destination buffer chunk region by chunk region
(`data.chunks_mut(CHUNK_SIZE).enumerate`), retrying each blocking read
until it succeeds, and emits `ACK(i)` after each region; an emission
failure is only warned about (`unwrap_or_else(|_| warn!(..))`).  The
model reads the region's bytes from the head of `stream`; `emits k`
says whether the `k`-th token emission of the enclosing phase succeeds.
The `fuel` argument is only a structural termination measure
(`buf.length` is always enough). -/

structure RecvBytes where
  received : List Nat
  acks : List Nat
  warns : List Nat
  deriving DecidableEq, Repr

def receiveBytesAux (emits : Nat → Bool) :
    Nat → List Nat → List Nat → Nat → RecvBytes
  | 0, _, _, _ => ⟨[], [], []⟩
  | fuel + 1, stream, buf, i =>
    if buf.length = 0 then ⟨[], [], []⟩
    else
      let c := min CHUNK_SIZE buf.length
      let w := receiveBytesAux emits fuel (stream.drop c) (buf.drop c) (i + 1)
      ⟨stream.take c ++ w.received, i :: w.acks,
       if emits i then w.warns else i :: w.warns⟩

def receive_bytes (emits : Nat → Bool) (stream buf : List Nat) (i : Nat) :
    RecvBytes :=
  receiveBytesAux emits buf.length stream buf i

/-- The observable outcome of `receive_image`: the size buffer and image
buffer as filled, the ACK indices emitted by each `receive_bytes` call,
the two `OK(checksum)` values emitted, and the warn log of failed
emissions (as emission slot numbers of the whole run). -/
structure RecvImage where
  sizeBuf : List Nat
  image : List Nat
  sizeAcks : List Nat
  imageAcks : List Nat
  oks : List Nat
  warns : List Nat
  deriving Repr

/-- Model of `receive_image` (`uefi/src/main.rs` lines 45-95), starting after the
`RDY` emission: read the 8 size bytes (one chunk, `ACK(0)`), emit
`OK(checksum(size_bytes))`, decode the length big-endian, allocate a
zeroed buffer of that length, fill it chunk by chunk with `ACK(i)` each,
and emit `OK(checksum(image_bytes))`.  Emission slots are numbered in
order of attempt across the whole run. -/
def receive_image (emits : Nat → Bool) (stream : List Nat) : RecvImage :=
  let s1 := receive_bytes emits stream (List.replicate 8 0) 0
  let c1 := checksum s1.received
  let size := fromBeBytes s1.received
  let s2 := receive_bytes (fun k => emits (s1.acks.length + 1 + k))
    (stream.drop 8) (List.replicate size 0) 0
  let c2 := checksum s2.received
  ⟨s1.received, s2.received, s1.acks, s2.acks, [c1, c2],
   s1.warns
     ++ (if emits s1.acks.length then [] else [s1.acks.length])
     ++ s2.warns.map (fun k => s1.acks.length + 1 + k)
     ++ (if emits (s1.acks.length + 1 + s2.acks.length) then []
         else [s1.acks.length + 1 + s2.acks.length])⟩

/-- A concrete emission environment in which every token write succeeds. -/
def allEmitsOk : Nat → Bool := fun _ => true

/-! ## Scanner lemmas -/

theorem waitGo_stop (bytes : List Nat) (q : Nat) (timeout : Option Nat)
    (stream : List (Option Nat)) (i : Nat) (remaining : Option Nat)
    (h : ¬(i < bytes.length ∧ budgetOk timeout remaining = true)) :
    waitGo bytes q timeout stream i remaining = ⟨i, 0, stream, remaining⟩ := by
  cases stream with
  | nil => rfl
  | cons r rest =>
    simp only [waitGo]
    rw [if_neg h]

/-- Scanning along the target: with the cursor at `done.length` inside
target `done ++ rem` and the stream delivering exactly `rem`, the scan
reaches the full target in `rem.length` successful reads, never touching
the budget. -/
theorem waitGo_match (q : Nat) (timeout : Option Nat)
    (hb : budgetOk timeout timeout = true) :
    ∀ (rem done : List Nat) (rest : List (Option Nat)),
      waitGo (done ++ rem) q timeout (rem.map some ++ rest) done.length timeout
        = ⟨(done ++ rem).length, rem.length, rest, timeout⟩ := by
  intro rem
  induction rem with
  | nil =>
    intro done rest
    rw [List.map_nil, List.nil_append, List.append_nil]
    exact waitGo_stop _ _ _ _ _ _ (by simp)
  | cons b rem ih =>
    intro done rest
    rw [List.map_cons, List.cons_append]
    simp only [waitGo]
    rw [if_pos ⟨by simp, hb⟩]
    have hget : (done ++ b :: rem)[done.length]? = some b := by
      rw [List.getElem?_append_right (Nat.le_refl _)]
      simp
    rw [if_pos hget]
    have key := ih (done ++ [b]) rest
    have e1 : (done ++ [b]) ++ rem = done ++ b :: rem := by simp
    have e2 : (done ++ [b]).length = done.length + 1 := by simp
    rw [e1, e2] at key
    rw [key]
    simp [ScanResult.mk.injEq, List.length_append]

/-- Scanning through garbage that never matches the target's first byte:
the cursor stays at 0 and each garbage byte costs one read. -/
theorem waitGo_garbage (q : Nat) (timeout : Option Nat) (target : List Nat)
    (hb : budgetOk timeout timeout = true) :
    ∀ (g : List Nat), (∀ b ∈ g, ∃ hd tl, target = hd :: tl ∧ b ≠ hd) →
      ∀ (rest : List (Option Nat)),
        waitGo target q timeout (g.map some ++ rest) 0 timeout
          = ⟨(waitGo target q timeout rest 0 timeout).cursor,
             (waitGo target q timeout rest 0 timeout).reads + g.length,
             (waitGo target q timeout rest 0 timeout).rest,
             (waitGo target q timeout rest 0 timeout).remaining⟩ := by
  intro g
  induction g with
  | nil => intro _ rest; simp
  | cons b g ih =>
    intro hg rest
    obtain ⟨hd, tl, htarget, hne⟩ := hg b (List.mem_cons_self b g)
    rw [List.map_cons, List.cons_append, waitGo,
      if_pos ⟨by simp [htarget], hb⟩]
    have hget : target[0]? ≠ some b := by
      rw [htarget]
      simp [Ne.symm hne]
    simp only [if_neg hget]
    rw [ih (fun x hx => hg x (List.mem_cons_of_mem b hx)) rest]
    simp [Nat.add_comm, Nat.add_assoc, Nat.add_left_comm]

/-! ## Receiver lemmas -/

theorem receiveBytesAux_nil (emits : Nat → Bool) (fuel : Nat)
    (stream : List Nat) (i : Nat) :
    receiveBytesAux emits fuel stream [] i = ⟨[], [], []⟩ := by
  cases fuel <;> simp [receiveBytesAux]

/-- A destination buffer of at most one chunk is filled by a single read
of its full length, acknowledged once. -/
theorem receive_bytes_single (emits : Nat → Bool) (stream buf : List Nat)
    (i : Nat) (h0 : buf.length ≠ 0) (hle : buf.length ≤ CHUNK_SIZE) :
    receive_bytes emits stream buf i
      = ⟨stream.take buf.length, [i], if emits i then [] else [i]⟩ := by
  unfold receive_bytes
  obtain ⟨k, hk⟩ : ∃ k, buf.length = k + 1 := ⟨buf.length - 1, by omega⟩
  rw [hk]
  simp only [receiveBytesAux]
  rw [if_neg h0, min_eq_right hle, List.drop_length, receiveBytesAux_nil]
  rw [← hk]
  cases hei : emits i <;> simp

/-- Filling the 8-byte size buffer from a stream whose first 8 bytes are
`pre`: one chunk, one `ACK(i)`, buffer contents exactly `pre`. -/
theorem receive_bytes_size (emits : Nat → Bool) (pre rest : List Nat)
    (i : Nat) (h : pre.length = 8) :
    receive_bytes emits (pre ++ rest) (List.replicate 8 0) i
      = ⟨pre, [i], if emits i then [] else [i]⟩ := by
  rw [receive_bytes_single emits (pre ++ rest) (List.replicate 8 0) i
    (by simp) (by simp [CHUNK_SIZE])]
  have htake : (pre ++ rest).take (List.replicate 8 (0 : Nat)).length = pre := by
    rw [List.length_replicate, ← h, List.take_left]
  rw [htake]

/-- The buffer contents and ACK sequence produced by the chunked receive
do not depend on whether the token emissions succeed; only the warn log
does. -/
theorem receiveBytesAux_emits_irrel (e1 e2 : Nat → Bool) :
    ∀ (fuel : Nat) (stream buf : List Nat) (i : Nat),
      (receiveBytesAux e1 fuel stream buf i).received
          = (receiveBytesAux e2 fuel stream buf i).received
      ∧ (receiveBytesAux e1 fuel stream buf i).acks
          = (receiveBytesAux e2 fuel stream buf i).acks := by
  intro fuel
  induction fuel with
  | zero => intro stream buf i; exact ⟨rfl, rfl⟩
  | succ fuel ih =>
    intro stream buf i
    by_cases hb : buf.length = 0
    · simp [receiveBytesAux, hb]
    · simp only [receiveBytesAux]
      rw [if_neg hb, if_neg hb]
      obtain ⟨h1, h2⟩ := ih (stream.drop (min CHUNK_SIZE buf.length))
        (buf.drop (min CHUNK_SIZE buf.length)) (i + 1)
      refine ⟨?_, ?_⟩
      · dsimp only
        rw [h1]
      · dsimp only
        rw [h2]

theorem chunksOf_of_length_le {α : Type} (n : Nat) (l : List α)
    (h0 : 0 < l.length) (hn : l.length ≤ n) :
    chunksOf n l = [l] := by
  obtain ⟨k, hk⟩ : ∃ k, l.length = k + 1 := ⟨l.length - 1, by omega⟩
  rw [chunksOf, hk]
  simp only [chunksOfAux]
  rw [if_neg (by omega)]
  rw [List.take_of_length_le hn, List.drop_eq_nil_of_le hn]
  cases k <;> simp [chunksOfAux]

/-! ## Claim theorems -/

set_option maxRecDepth 16384 in
/-- C1: the checksum is a total, deterministic, side-effect-free function
of its input byte sequence (it is a Lean function, defined on every list,
with a 16-bit result), and on the nine ASCII digit bytes `"123456789"` it
returns the standard CRC-16/X-25 check value 0x906E; on the empty
sequence it returns 0xFFFF XOR 0xFFFF = 0. -/
theorem checksum_check_value :
    checksum (tokenBytes "123456789") = 0x906E
    ∧ checksum [] = 0
    ∧ ∀ msg : List Nat, checksum msg < 2 ^ 16 := by
  refine ⟨by decide, by decide, fun msg => ?_⟩
  have := checksum_lt msg
  omega

/-- C2: splitting any byte sequence into successive 256-byte chunks (the
last possibly shorter) and concatenating the chunks in index order
reconstructs the original sequence exactly. -/
theorem chunks_flatten_id (l : List Nat) :
    (chunksOf CHUNK_SIZE l).flatten = l :=
  chunksOf_flatten CHUNK_SIZE (by norm_num [CHUNK_SIZE]) l

/-- C3: while the ACK(i) scan keeps failing, every iteration of the
sender's inner loop leaves it at chunk `i` (after any number of retries)
and rewrites the identical chunk `i` each time, with no bound on the
retry count; once the scan succeeds it advances to chunk `i+1`, or to
the image-OK wait when `i` was the last chunk. -/
theorem chunk_retry_and_advance (image : List Nat) (n i k : Nat) :
    chunkRun n (.sendChunk i) (List.replicate k false) = .sendChunk i
    ∧ chunkWrites image n (.sendChunk i) (List.replicate k false)
        = List.replicate k ((chunksOf CHUNK_SIZE image).getD i [])
    ∧ chunkStep n (.sendChunk i) true
        = (if i + 1 < n then .sendChunk (i + 1) else .awaitImageOk) := by
  refine ⟨?_, ?_, rfl⟩
  · induction k with
    | zero => rfl
    | succ k ih =>
      rw [List.replicate_succ]
      simpa [chunkRun, chunkStep] using ih
  · induction k with
    | zero => rfl
    | succ k ih =>
      rw [List.replicate_succ, List.replicate_succ]
      simpa [chunkWrites, chunkStep] using ih

/-- C4 counterexample: the claim says the image-OK wait's budget is
strictly larger than the per-chunk ACK budget, but the code gives the
image-OK wait 20 ms (`Duration::from_millis(20)`) against the 30 ms
(`Duration::from_millis(30)`) used for each per-chunk ACK wait. -/
theorem imageOk_timeout_not_wider : ¬ chunkAckTimeout < imageOkTimeout := by
  decide

/-- C4 (amended): the sender's final image-OK phase performs a bounded
scan for `OK(checksum(full_image))` whose timeout budget (20 ms) is
strictly SMALLER than the per-chunk ACK budget (30 ms), and exhausting
that budget is fatal: a scan failure aborts the transfer. -/
theorem imageOk_timeout_narrower_and_fatal :
    imageOkTimeout < chunkAckTimeout
    ∧ ∀ (image : List Nat) (stream : List (Option Nat)) (i : Nat),
        awaitImageOk image stream = .error i →
        senderFinish image stream = none := by
  refine ⟨by decide, ?_⟩
  intro image stream i h
  unfold senderFinish
  rw [h]

/-- Witness for C4 (amended) at the empty image and an empty stream. -/
theorem imageOk_fatal_witness : senderFinish [] [] = none :=
  imageOk_timeout_narrower_and_fatal.2 [] [] 0 (by rfl)

/-- C5: when the budget allows scanning at all, a stream `target ++
suffix` is matched in exactly `target.length` reads, consuming no byte of
`suffix`; a stream `garbage ++ target`, where no garbage byte equals the
target's first byte (no prefix overlap), is matched in exactly
`garbage.length + target.length` reads, the budget never decremented by
a successful read. -/
theorem scanner_reads_exact (target suffix garbage : List Nat)
    (timeout : Option Nat) (q : Nat)
    (hb : budgetOk timeout timeout = true)
    (hg : ∀ b ∈ garbage, ∃ hd tl, target = hd :: tl ∧ b ≠ hd) :
    (waitGo target q timeout ((target ++ suffix).map some) 0 timeout
        = ⟨target.length, target.length, suffix.map some, timeout⟩
      ∧ wait_for_bytes target ((target ++ suffix).map some) timeout q = .ok ())
    ∧ (waitGo target q timeout ((garbage ++ target).map some) 0 timeout
        = ⟨target.length, garbage.length + target.length, [], timeout⟩
      ∧ wait_for_bytes target ((garbage ++ target).map some) timeout q
          = .ok ()) := by
  have hmatch : ∀ rest : List (Option Nat),
      waitGo target q timeout (target.map some ++ rest) 0 timeout
        = ⟨target.length, target.length, rest, timeout⟩ := by
    intro rest
    have := waitGo_match q timeout hb target [] rest
    simpa using this
  have h1 : waitGo target q timeout ((target ++ suffix).map some) 0 timeout
      = ⟨target.length, target.length, suffix.map some, timeout⟩ := by
    rw [List.map_append]
    exact hmatch (suffix.map some)
  have h2 : waitGo target q timeout ((garbage ++ target).map some) 0 timeout
      = ⟨target.length, garbage.length + target.length, [], timeout⟩ := by
    rw [List.map_append]
    have hgarb := waitGo_garbage q timeout target hb garbage hg (target.map some)
    have hm : waitGo target q timeout (target.map some) 0 timeout
        = ⟨target.length, target.length, [], timeout⟩ := by
      have := hmatch []
      simpa using this
    rw [hgarb, hm]
    simp [Nat.add_comm]
  refine ⟨⟨h1, ?_⟩, ⟨h2, ?_⟩⟩
  · unfold wait_for_bytes
    rw [h1]
    simp
  · unfold wait_for_bytes
    rw [h2]
    simp

/-- Witness for C5 at target "AB" = [65, 66], suffix [7], garbage [57]. -/
theorem scanner_reads_exact_witness :
    (waitGo [65, 66] 0 none [some 65, some 66, some 7] 0 none
        = ⟨2, 2, [some 7], none⟩
      ∧ wait_for_bytes [65, 66] [some 65, some 66, some 7] none 0 = .ok ())
    ∧ (waitGo [65, 66] 0 none [some 57, some 65, some 66] 0 none
        = ⟨2, 3, [], none⟩
      ∧ wait_for_bytes [65, 66] [some 57, some 65, some 66] none 0
          = .ok ()) :=
  scanner_reads_exact [65, 66] [7] [57] none 0 (by decide)
    (by
      intro b hbm
      refine ⟨65, [66], rfl, ?_⟩
      simp at hbm
      omega)

/-- C8: in bounded mode an unsuccessful read decrements the remaining
budget by the per-read quantum `q` (saturating) while a successful read
leaves it unchanged; with the budget at zero the loop stops at once, and
whenever the run ends with the cursor short of the target the call
reports `Err` carrying that cursor position. -/
theorem bounded_scan_budget (bytes : List Nat) (q t r i : Nat)
    (s : List (Option Nat)) (hi : i < bytes.length) :
    (0 < r →
      waitGo bytes q (some t) (none :: s) i (some r)
        = ⟨(waitGo bytes q (some t) s i (some (r - q))).cursor,
           (waitGo bytes q (some t) s i (some (r - q))).reads + 1,
           (waitGo bytes q (some t) s i (some (r - q))).rest,
           (waitGo bytes q (some t) s i (some (r - q))).remaining⟩)
    ∧ (∀ c : Nat, 0 < r →
      waitGo bytes q (some t) (some c :: s) i (some r)
        = ⟨(waitGo bytes q (some t) s
              (if bytes[i]? = some c then i + 1 else 0) (some r)).cursor,
           (waitGo bytes q (some t) s
              (if bytes[i]? = some c then i + 1 else 0) (some r)).reads + 1,
           (waitGo bytes q (some t) s
              (if bytes[i]? = some c then i + 1 else 0) (some r)).rest,
           (waitGo bytes q (some t) s
              (if bytes[i]? = some c then i + 1 else 0) (some r)).remaining⟩)
    ∧ waitGo bytes q (some t) s i (some 0) = ⟨i, 0, s, some 0⟩
    ∧ (∀ stream : List (Option Nat),
        (waitGo bytes q (some t) stream 0 (some t)).cursor < bytes.length →
        wait_for_bytes bytes stream (some t) q
          = .error ((waitGo bytes q (some t) stream 0 (some t)).cursor)) := by
  refine ⟨?_, ?_, ?_, ?_⟩
  · intro hr
    simp only [waitGo]
    rw [if_pos ⟨hi, by simp [budgetOk]; omega⟩]
    simp
  · intro c hr
    simp only [waitGo]
    rw [if_pos ⟨hi, by simp [budgetOk]; omega⟩]
    by_cases hc : bytes[i]? = some c
    · rw [if_pos hc, if_pos hc]
    · rw [if_neg hc, if_neg hc]
  · exact waitGo_stop _ _ _ _ _ _ (by simp [budgetOk])
  · intro stream hcur
    unfold wait_for_bytes
    rw [if_neg (by omega)]

/-- Witness for C8 at target [65], quantum 5, budget 7. -/
theorem bounded_scan_budget_witness :
    waitGo [65] 5 (some 7) [none] 0 (some 7)
      = ⟨(waitGo [65] 5 (some 7) [] 0 (some (7 - 5))).cursor,
         (waitGo [65] 5 (some 7) [] 0 (some (7 - 5))).reads + 1,
         (waitGo [65] 5 (some 7) [] 0 (some (7 - 5))).rest,
         (waitGo [65] 5 (some 7) [] 0 (some (7 - 5))).remaining⟩ :=
  (bounded_scan_budget [65] 5 7 7 0 [] (by decide)).1 (by decide)

/-- C6: a 0-byte image has no chunks, so the sender's per-chunk loop runs
zero iterations and the chunk phase starts already at the image-OK wait,
whose target is `OK(checksum(empty))` = `OK(0)`; the receiver, handed the
8-byte size field encoding 0, allocates a zero-length buffer, performs
zero chunk reads and zero chunk ACKs, and emits the checksum of the empty
sequence as its second OK. -/
theorem empty_image_behavior :
    chunksOf CHUNK_SIZE ([] : List Nat) = []
    ∧ List.range (chunksOf CHUNK_SIZE ([] : List Nat)).length = []
    ∧ chunkPhaseStart (chunksOf CHUNK_SIZE ([] : List Nat)).length
        = SenderState.awaitImageOk
    ∧ okToken (checksum []) = okToken 0
    ∧ ∀ (rest : List Nat) (emits : Nat → Bool),
        (receive_image emits (toBeBytes8 0 ++ rest)).sizeBuf = toBeBytes8 0
        ∧ (receive_image emits (toBeBytes8 0 ++ rest)).image = []
        ∧ (receive_image emits (toBeBytes8 0 ++ rest)).imageAcks = []
        ∧ (receive_image emits (toBeBytes8 0 ++ rest)).oks
            = [checksum (toBeBytes8 0), checksum []] := by
  refine ⟨rfl, rfl, rfl, rfl, ?_⟩
  intro rest emits
  have hs1 := receive_bytes_size emits (toBeBytes8 0) rest 0 (by decide)
  have h0 : fromBeBytes (toBeBytes8 0) = 0 := by decide
  simp only [receive_image, hs1, h0]
  simp [receive_bytes, receiveBytesAux]

/-- C7: the sender writes the image length as exactly 8 big-endian bytes,
once and unconditionally, and waits for exactly one size acknowledgement,
namely `ACK(0)` (the 8-byte field is a single chunk under the 256-byte
chunk size); the receiver reads exactly those 8 bytes into its size
buffer, and big-endian decode of the big-endian encoding is the identity
on the length. -/
theorem size_field_roundtrip (n : Nat) (rest : List Nat)
    (emits : Nat → Bool) (h : n < 2 ^ 64) :
    sendSizeTrace n = [toBeBytes8 n]
    ∧ (toBeBytes8 n).length = 8
    ∧ sizeAckTargets (toBeBytes8 n) = [ackToken 0]
    ∧ (receive_image emits (toBeBytes8 n ++ rest)).sizeBuf = toBeBytes8 n
    ∧ fromBeBytes (toBeBytes8 n) = n := by
  have hlen : (toBeBytes8 n).length = 8 := by simp [toBeBytes8]
  refine ⟨?_, hlen, ?_, ?_, ?_⟩
  · unfold sendSizeTrace
    rw [Nat.mod_eq_of_lt h]
  · unfold sizeAckTargets
    rw [chunksOf_of_length_le CHUNK_SIZE (toBeBytes8 n) (by omega)
      (by rw [hlen]; norm_num [CHUNK_SIZE])]
    rfl
  · have hs1 := receive_bytes_size emits (toBeBytes8 n) rest 0 hlen
    simp only [receive_image, hs1]
  · simp only [toBeBytes8, fromBeBytes, List.range_succ, List.range_zero,
      List.map_append, List.map_cons, List.map_nil, List.nil_append,
      List.foldl_append, List.foldl_cons, List.foldl_nil]
    norm_num
    omega

/-- Witness for C7 at image length 5 and an empty trailing stream. -/
theorem size_field_roundtrip_witness :
    sendSizeTrace 5 = [toBeBytes8 5]
    ∧ (toBeBytes8 5).length = 8
    ∧ sizeAckTargets (toBeBytes8 5) = [ackToken 0]
    ∧ (receive_image allEmitsOk (toBeBytes8 5 ++ [])).sizeBuf = toBeBytes8 5
    ∧ fromBeBytes (toBeBytes8 5) = 5 :=
  size_field_roundtrip 5 [] allEmitsOk (by norm_num)

/-- C9: whether the receiver's ACK/OK token emissions succeed or fail
changes nothing observable but the warn log: the size buffer, the image
buffer, both ACK index sequences and both emitted OK checksums are
identical under any two emission environments. -/
theorem emission_failures_ignored (stream : List Nat) (e1 e2 : Nat → Bool) :
    (receive_image e1 stream).sizeBuf = (receive_image e2 stream).sizeBuf
    ∧ (receive_image e1 stream).image = (receive_image e2 stream).image
    ∧ (receive_image e1 stream).sizeAcks = (receive_image e2 stream).sizeAcks
    ∧ (receive_image e1 stream).imageAcks
        = (receive_image e2 stream).imageAcks
    ∧ (receive_image e1 stream).oks = (receive_image e2 stream).oks := by
  obtain ⟨hr, ha⟩ := receiveBytesAux_emits_irrel e1 e2
    (List.replicate 8 (0 : Nat)).length stream (List.replicate 8 0) 0
  simp only [receive_image, receive_bytes]
  rw [hr, ha]
  obtain ⟨hr2, ha2⟩ := receiveBytesAux_emits_irrel
    (fun k => e1 ((receiveBytesAux e2 (List.replicate 8 (0 : Nat)).length
      stream (List.replicate 8 0) 0).acks.length + 1 + k))
    (fun k => e2 ((receiveBytesAux e2 (List.replicate 8 (0 : Nat)).length
      stream (List.replicate 8 0) 0).acks.length + 1 + k))
    (List.replicate (fromBeBytes (receiveBytesAux e2
      (List.replicate 8 (0 : Nat)).length stream
      (List.replicate 8 0) 0).received) (0 : Nat)).length
    (stream.drop 8)
    (List.replicate (fromBeBytes (receiveBytesAux e2
      (List.replicate 8 (0 : Nat)).length stream
      (List.replicate 8 0) 0).received) 0) 0
  rw [hr2, ha2]
  exact ⟨rfl, rfl, rfl, rfl, rfl⟩

/-- C10: in the chunk phase a transport write error is discarded — the
iteration's outcome does not depend on the write result, and a failed
ACK scan just keeps the sender at the same chunk (to be rewritten) —
whereas a failed size write is fatal. -/
theorem chunk_write_errors_ignored :
    (∀ (n : Nat) (st : SenderState) (w1 w2 s : Bool),
        chunkIter n st w1 s = chunkIter n st w2 s)
    ∧ (∀ (n i : Nat) (w : Bool),
        chunkIter n (.sendChunk i) w false = .sendChunk i)
    ∧ sizeWriteOutcome false = none
    ∧ sizeWriteOutcome true = some () :=
  ⟨fun _ _ _ _ _ => rfl, fun _ _ _ => rfl, rfl, rfl⟩

end Trebuchet
